import Mathlib

/-!
Verification of the miniprotector repository against its natural-language
specification.  Go code is shallowly embedded: byte strings become `List Nat`
(each element one byte) or `List Char` (one rune), machine integers become
`Nat`/`Int` with explicit bounds where they matter, stateful code becomes
explicit state passing, and fallible code returns `Option`.
-/

namespace Crc

/-- Modelled from the spec: the repository has no CRC32 implementation under
`src/` (the Checksum Combiner of spec sections 4.2 and 8 exists only in the
design documents), so CRC32 is modelled from the spec's words: the standard
reflected CRC-32 (IEEE, generator `0xEDB88320`, as used by Go's
`hash/crc32.IEEETable` which the design refers to).  One table-generation bit
step: shift right, conditionally xor the reflected generator polynomial. -/
def crcPoly : Nat := 0xEDB88320

/-- One bit of CRC32 table generation: `if crc&1 == 1 { crc>>1 ^ poly } else { crc>>1 }`. -/
def bitstep (r : Nat) : Nat :=
  if r &&& 1 = 1 then (r >>> 1) ^^^ crcPoly else r >>> 1

/-- CRC32 lookup-table entry: eight bit steps applied to the byte value. -/
def crcTable (n : Nat) : Nat := bitstep^[8] n

/-- One byte of CRC32 processing: `crc = crc>>8 ^ table[(crc^b)&0xFF]`. -/
def crcStep (r b : Nat) : Nat := (r >>> 8) ^^^ crcTable ((r ^^^ b) &&& 0xFF)

/-- CRC32 register after folding `bs` into initial register `r`. -/
def crcRaw (r : Nat) (bs : List Nat) : Nat := bs.foldl crcStep r

/-- CRC32 of a byte sequence: initial register `0xFFFFFFFF`, final xor `0xFFFFFFFF`. -/
def crc32 (bs : List Nat) : Nat := crcRaw 0xFFFFFFFF bs ^^^ 0xFFFFFFFF

/-- The zero-byte CRC state transition (processing one `0x00` byte). -/
def zstep (r : Nat) : Nat := crcStep r 0

/-- Shifting a CRC register forward by `n` zero bytes' worth of CRC state. -/
def zshift (n : Nat) (r : Nat) : Nat := zstep^[n] r

/-- Modelled from the spec: the Checksum Combiner's pairwise combine, per
section 4.2 — "combining crcA (length lenA) with crcB (length lenB) requires
shifting crcA forward by lenB zero-bytes' worth of CRC state ... before
XOR-combining with crcB". -/
def crc32Combine (crcA crcB : Nat) (lenB : Nat) : Nat :=
  zshift lenB crcA ^^^ crcB

/-- Modelled from the spec: the Combiner applied to an ordered sequence of
(CRC32, byte-length) pairs, folding pairwise combines starting from the CRC
of the empty sequence (which is 0). -/
def crc32CombineAll (ps : List (Nat × Nat)) : Nat :=
  ps.foldl (fun acc p => crc32Combine acc p.1 p.2) 0

end Crc

/-! ## Go string helpers

Models of the Go standard-library string functions the sources use.  Go
strings are modelled as `List Char` (one element per rune; all protocol
strings in the sources are ASCII). -/

namespace GoStr

/-- `unicode.IsSpace`, as used by `strings.TrimSpace`. -/
def isGoSpace (c : Char) : Bool :=
  c == ' ' || c == '\t' || c == '\n' || c == '\x0b' || c == '\x0c' || c == '\r' ||
  c == '\u0085' || c == '\u00A0' || c == '\u1680' ||
  ('\u2000' ≤ c && c ≤ '\u200A') ||
  c == '\u2028' || c == '\u2029' || c == '\u202F' || c == '\u205F' || c == '\u3000'

/-- `strings.TrimSpace`: drop leading and trailing white space. -/
def goTrimSpace (s : List Char) : List Char :=
  ((s.dropWhile isGoSpace).reverse.dropWhile isGoSpace).reverse

/-- `strings.Split(s, sep)` for a one-rune separator: split on every
occurrence of `sep`.  `Split("", sep) = [""]`, as in Go. -/
def goSplit (sep : Char) : List Char → List (List Char)
  | [] => [[]]
  | c :: rest =>
    if c = sep then [] :: goSplit sep rest
    else
      match goSplit sep rest with
      | [] => [[c]]
      | p :: ps => (c :: p) :: ps

/-- `strings.SplitN(s, sep, n)` for a one-rune separator: nil for `n = 0`;
otherwise at most `n` parts, the last part holding the unsplit remainder. -/
def goSplitN (sep : Char) (s : List Char) : Nat → List (List Char)
  | 0 => []
  | 1 => [s]
  | n + 2 =>
    if sep ∈ s then
      (s.takeWhile (· ≠ sep)) :: goSplitN sep ((s.dropWhile (· ≠ sep)).drop 1) (n + 1)
    else [s]

/-- Decimal digit value of a character, as Go's strconv computes it. -/
def digitVal (c : Char) : Nat := c.toNat - 48

/-- The numeric value of a run of decimal digits, most significant first. -/
def decValue (ds : List Char) : Nat := ds.foldl (fun a c => a * 10 + digitVal c) 0

/-- `strconv.Atoi` / `strconv.ParseInt(s, 10, 64)`: optional sign, at least
one digit, every character a digit, value within the int64 range. -/
def goParseInt (s : List Char) : Option Int :=
  if s = [] then none
  else
    let c := s.headD ' '
    let ds : List Char := if c = '-' ∨ c = '+' then s.tail else s
    if ds = [] then none
    else if ds.all Char.isDigit then
      let v : Int := if c = '-' then -(decValue ds : Int) else (decValue ds : Int)
      if v < -(2 ^ 63) ∨ (2 ^ 63 - 1 : Int) < v then none else some v
    else none

/-- `strconv.ParseUint(s, 10, 32)`: no sign permitted, at least one digit,
every character a digit, value below `2^32`. -/
def goParseUint32 (s : List Char) : Option Nat :=
  if s = [] then none
  else if s.all Char.isDigit then
    if decValue s < 2 ^ 32 then some (decValue s) else none
  else none

/-- Decimal digit character for a value below ten. -/
def digitChar (d : Nat) : Char :=
  match d with
  | 0 => '0' | 1 => '1' | 2 => '2' | 3 => '3' | 4 => '4'
  | 5 => '5' | 6 => '6' | 7 => '7' | 8 => '8' | _ => '9'

/-- Decimal digit characters of `n`, most significant first; the fuel (first
argument) bounds the recursion depth and any fuel `≥ n` is enough. -/
def natToCharsAux : Nat → Nat → List Char
  | 0, _ => []
  | fuel + 1, n => if n = 0 then [] else natToCharsAux fuel (n / 10) ++ [digitChar (n % 10)]

/-- `fmt`'s `%d` for a natural number: decimal digits, most significant first. -/
def natToChars (n : Nat) : List Char :=
  if n = 0 then ['0'] else natToCharsAux n n

/-- `fmt`'s `%d` for an int64: minus sign for negative values. -/
def intToChars (i : Int) : List Char :=
  if i < 0 then '-' :: natToChars i.natAbs else natToChars i.toNat

end GoStr

/-! ## Chunker (`src/unnamed/part_008`, package `chunker`)

The BLAKE3 hasher comes from the external library `lukechampine.com/blake3`;
it is a collaborator, so it is passed in as a function `H` from byte content
to digest bytes.  The source constructs it as `blake3.New(8, nil)`, i.e. an
8-byte (64-bit) digest; that contract appears as the hypothesis
`∀ d, (H d).length = 8` where a theorem needs it.  `os.ReadFile`/`os.Open`
are abstracted by handing the functions the file's byte content directly
(the claims quantify over readable files). -/

namespace Chunker

/-- `hex.EncodeToString`'s digit table. -/
def hexDigits : List Char := "0123456789abcdef".data

/-- One byte to two lowercase hex characters, high nibble first. -/
def hexByte (b : Nat) : List Char :=
  [hexDigits.getD ((b >>> 4) &&& 0xF) '0', hexDigits.getD (b &&& 0xF) '0']

/-- `hex.EncodeToString`: each byte becomes two hex characters. -/
def hexEncode (bs : List Nat) : List Char :=
  bs.foldr (fun b acc => hexByte b ++ acc) []

/-- `Chunk`: `Data []byte`, `Checksum string`. -/
structure Chunk where
  Data : List Nat
  Checksum : List Char
deriving DecidableEq

/-- `calculateChecksum`: hex encoding of the BLAKE3 digest of `data`. -/
def calculateChecksum (H : List Nat → List Nat) (data : List Nat) : List Char :=
  hexEncode (H data)

/-- `ChunkFile` (the source's MVP): one single chunk holding the entire file
content, with its checksum. -/
def ChunkFile (H : List Nat → List Nat) (content : List Nat) : List Chunk :=
  [{ Data := content, Checksum := calculateChecksum H content }]

/-- `CalculateFileChecksum`: hex encoding of the BLAKE3 digest of the whole
file's bytes (the source streams the file through the hasher with `io.Copy`;
the digest is the digest of the full content). -/
def CalculateFileChecksum (H : List Nat → List Nat) (content : List Nat) : List Char :=
  hexEncode (H content)

/-- The fixed chunk size bound of the design: 512 KiB. -/
def maxChunkSize : Nat := 524288

end Chunker

/-! ## Metadata store (`src/src/common/wfs/database.go`) -/

namespace Wfs

/-- One row of the `files` table, with the columns `FileDB.initSchema`
creates (ids and audit timestamps omitted; times are unix instants). -/
structure FileRow where
  path : String
  name : String
  size : Int
  mode : Nat
  owner : Nat
  group : Nat
  modtime : Int
  accessTime : Int
  ctime : Int
  acl : String
  sourceHost : String
  backupTime : Int
deriving DecidableEq

/-- `FileDB.FileExists(path, host, modtime, ctime)`: the query
`SELECT ctime FROM files WHERE source_host = ? AND path = ? AND modtime = ?`
finds a row or not; the scanned `ctime` column is never compared, and the
`ctime` argument is never used. -/
def FileExists (rows : List FileRow) (path host : String) (modtime : Int) (ctime : Int) : Bool :=
  rows.any fun r => r.sourceHost == host && r.path == path && r.modtime == modtime

/-- The columns of the `files` table created by `FileDB.initSchema`. -/
def initSchemaColumns : List String :=
  ["id", "path", "name", "size", "mode", "owner", "group_id", "modtime",
   "access_time", "ctime", "acl", "source_host", "backup_time", "created_at", "updated_at"]

/-- The columns `FileDB.AddFile`'s INSERT populates. -/
def addFileInsertColumns : List String :=
  ["backup_time", "source_host", "path", "name", "size", "mode", "owner", "group_id",
   "modtime", "access_time", "ctime", "acl", "created_at", "updated_at"]

/-- The columns `FileDB.GetFile`'s SELECT reads back. -/
def getFileSelectColumns : List String :=
  ["id", "path", "name", "size", "mode", "owner", "group_id", "modtime", "access_time",
   "ctime", "acl", "source_host", "backup_time", "hash", "created_at", "updated_at"]

end Wfs

/-! ## Backup writer file handling (`src/src/cmd/bwfs/processor.go`) -/

namespace Bwfs

/-- The fields of a decoded incoming `FileInfo` that the file-level decision
reads (`fileInfo.Path`, the source host, `fileInfo.ModTime`, `fileInfo.CTime`). -/
structure IncomingFile where
  path : String
  modTime : Int
  ctime : Int
deriving DecidableEq

/-- The server's file-level decision in `BackupStream.handleFileRequest`. -/
inductive FileDecision where
  | needed
  | skip
deriving DecidableEq

/-- `BackupStream.handleFileRequest`, state-passing form: consult
`FileExists` with (path, host, modTime, cTime); on a hit the file is skipped
and the store is untouched; on a miss the file is recorded via `AddFile`.
No chunk hashing or chunk processing exists on either branch.
`mkRow` stands for the row `AddFile` builds from the file's attributes. -/
def handleFileRequest (rows : List Wfs.FileRow) (fi : IncomingFile) (host : String)
    (mkRow : IncomingFile → String → Wfs.FileRow) :
    FileDecision × List Wfs.FileRow :=
  if Wfs.FileExists rows fi.path host fi.modTime fi.ctime then
    (.skip, rows)
  else
    (.needed, rows ++ [mkRow fi host])

end Bwfs

/-! ## File list splitting (`src/src/common/files/fileinfo.go`, `SplitByStreams`) -/

namespace Files

/-- The slicing loop of `SplitByStreams`: successive `files[start:end]`
slices, one per requested size. -/
def splitChunks {α : Type} (files : List α) : List Nat → List (List α)
  | [] => []
  | s :: ss => files.take s :: splitChunks (files.drop s) ss

/-- The per-stream slice sizes `SplitByStreams` computes:
`len/streams`, plus one for the first `len%streams` streams. -/
def streamSizes (streams len : Nat) : List Nat :=
  (List.range streams).map fun i => len / streams + if i < len % streams then 1 else 0

/-- `SplitByStreams(files, streams)`: `nil` for `streams <= 0`; the whole
list as the single stream for `streams == 1`; one (possibly empty) slice per
stream otherwise, sized `len/streams` with the remainder added to the first
streams.  The source's `end > len` clamp and `start < len` guard never fire
because the sizes sum to `len`; the `len(files) == 0` early return produces
the same all-empty slices as the general path. -/
def SplitByStreams {α : Type} (files : List α) (streams : Int) : List (List α) :=
  if streams ≤ 0 then []
  else if streams = 1 then [files]
  else splitChunks files (streamSizes streams.toNat files.length)

end Files

/-! ## Stream coordinator (`src/unnamed/part_016`, `processStreams`) -/

namespace Brfs

/-- What one stream's goroutine can contribute to the error channel: the
outcome of `NewBackupProcessor` (connection/stream setup) and, if setup
succeeded, of `processor.Process`. -/
structure SessionOutcome where
  setupErr : Option String
  processErr : Option String
deriving DecidableEq

/-- The error (if any) stream number `i` sends to the channel: a setup
failure short-circuits, otherwise a processing failure is reported. -/
def sessionError (i : Nat) (s : SessionOutcome) : Option String :=
  match s.setupErr with
  | some e => some ("stream " ++ toString i ++ " start failed: " ++ e)
  | none =>
    match s.processErr with
    | some e => some ("stream " ++ toString i ++ " processing failed: " ++ e)
    | none => none

/-- The errors accumulated in the `errors` channel, in stream order. -/
def collectErrors (i : Nat) : List SessionOutcome → List String
  | [] => []
  | s :: ss =>
    match sessionError i s with
    | some e => e :: collectErrors (i + 1) ss
    | none => collectErrors (i + 1) ss

/-- `processStreams`, outcome-level: after all goroutines finish, return the
first error drained from the channel, or nil when the channel is empty. -/
def processStreams (sessions : List SessionOutcome) : Option String :=
  match collectErrors 0 sessions with
  | [] => none
  | e :: _ => some e

end Brfs

/-! ## Backup writer connection start (`src/src/bwfs/server.go`,
`BackupMessageHandler.OnConnectionStart`) -/

namespace BwfsServer

/-- What `OnConnectionStart` does with the first line of a connection: the
response it writes, whether it returns an error (rejecting the connection),
and the stream state it stores (jobId, streamId), if any. -/
structure StartResult where
  response : List Char
  ok : Bool
  state : Option (List Char × Int)
deriving DecidableEq

/-- `BackupMessageHandler.OnConnectionStart`, applied to the first message
line received: trim it, require the `START_STREAM:` marker, split on `:`
into exactly three parts, require a non-empty jobId and an `Atoi`-parsable
streamId; acknowledge with `START_STREAM_OK` and store stream state, or
write an error response and reject with no state stored. -/
def OnConnectionStart (firstLine : List Char) : StartResult :=
  let message := GoStr.goTrimSpace firstLine
  if ¬ ("START_STREAM:".data.isPrefixOf message) then
    { response := "ERROR:NEED_START_STREAM".data, ok := false, state := none }
  else
    let parts := GoStr.goSplit ':' message
    if parts.length ≠ 3 then
      { response := "ERROR: invalid START_STREAM format".data, ok := false, state := none }
    else
      let iobId := parts.getD 1 []
      match GoStr.goParseInt (parts.getD 2 []) with
      | none =>
        { response := "ERROR: jobId and streamId cannot be empty".data, ok := false, state := none }
      | some streamId =>
        if iobId = [] then
          { response := "ERROR: jobId and streamId cannot be empty".data, ok := false, state := none }
        else
          { response := "START_STREAM_OK".data, ok := true, state := some (iobId, streamId) }

/-- The spec's well-formedness condition on a stream-open request, stated in
the spec's words: the (trimmed) message is `START_STREAM:jobId:streamId`
with a non-empty jobId (a colon inside the jobId would make the
colon-delimited message ambiguous, so the jobId field is colon-free) and an
integer streamId. -/
def WellFormedStreamOpen (m : List Char) : Prop :=
  ∃ j s, m = "START_STREAM:".data ++ j ++ ':' :: s ∧
    j ≠ [] ∧ ':' ∉ j ∧ (GoStr.goParseInt s).isSome

end BwfsServer

/-! ## Wire encoding of file metadata (`src/unnamed/part_014`, package
`protocol`) -/

namespace Protocol

/-- A Go `time.Time` instant: unix seconds and a sub-second nanosecond part
(`0 ≤ nsec < 1e9` for values produced by `time.Unix`/`statx`); `Unix()`
returns `sec`. -/
structure GoTime where
  sec : Int
  nsec : Nat
deriving DecidableEq

/-- The `files.FileInfo` this protocol version carries (`Path`, `Name`,
`FileType`, `Size`, `Mode`, `Owner`, `Group`, `ModTime`, `AccessTime`,
`ChangeTime`, `SymlinkTarget`). -/
structure FileInfo where
  Path : List Char
  Name : List Char
  FileType : Char
  Size : Int
  Mode : Nat
  Owner : Nat
  Group : Nat
  ModTime : GoTime
  AccessTime : GoTime
  ChangeTime : GoTime
  SymlinkTarget : List Char
deriving DecidableEq

/-- The message `SendFileMetadata` builds:
`FILE:%c;%d;%d;%d;%d;%d;%d;%d;%s` over FileType, Size, Mode, Owner, Group,
ModTime.Unix(), AccessTime.Unix(), ChangeTime.Unix(), Path. -/
def SendFileMetadata (file : FileInfo) : List Char :=
  "FILE:".data ++ [file.FileType] ++
  ';' :: GoStr.intToChars file.Size ++
  ';' :: GoStr.natToChars file.Mode ++
  ';' :: GoStr.natToChars file.Owner ++
  ';' :: GoStr.natToChars file.Group ++
  ';' :: GoStr.intToChars file.ModTime.sec ++
  ';' :: GoStr.intToChars file.AccessTime.sec ++
  ';' :: GoStr.intToChars file.ChangeTime.sec ++
  ';' :: file.Path

/-- `ParseFileMetadata`: require the `FILE:` marker and a non-empty payload,
split into at most nine `;`-separated fields (semicolons beyond the eighth
stay in the path), require exactly nine fields and a one-character file
type, parse the numeric fields, rebuild the `FileInfo` with second-precision
times (`time.Unix(n, 0)`). -/
def ParseFileMetadata (message : List Char) : Option FileInfo :=
  if ¬ ("FILE:".data.isPrefixOf message) then none
  else
    let payload := message.drop 5
    if payload.length = 0 then none
    else
      let parts := GoStr.goSplitN ';' payload 9
      if parts.length = 9 then
        let f0 := parts.getD 0 []
        if f0.length = 1 then
          match GoStr.goParseInt (parts.getD 1 []) with
          | none => none
          | some size =>
          match GoStr.goParseUint32 (parts.getD 2 []) with
          | none => none
          | some mode =>
          match GoStr.goParseUint32 (parts.getD 3 []) with
          | none => none
          | some owner =>
          match GoStr.goParseUint32 (parts.getD 4 []) with
          | none => none
          | some group =>
          match GoStr.goParseInt (parts.getD 5 []) with
          | none => none
          | some modTimeUnix =>
          match GoStr.goParseInt (parts.getD 6 []) with
          | none => none
          | some accessTimeUnix =>
          match GoStr.goParseInt (parts.getD 7 []) with
          | none => none
          | some changeTimeUnix =>
            some { Path := parts.getD 8 [], Name := [],
                   FileType := f0.headD ' ',
                   Size := size, Mode := mode, Owner := owner, Group := group,
                   ModTime := { sec := modTimeUnix, nsec := 0 },
                   AccessTime := { sec := accessTimeUnix, nsec := 0 },
                   ChangeTime := { sec := changeTimeUnix, nsec := 0 },
                   SymlinkTarget := [] }
        else none
      else none

end Protocol

namespace Crc

theorem xor_shiftRight (a b n : Nat) : (a ^^^ b) >>> n = (a >>> n) ^^^ (b >>> n) := by
  apply Nat.eq_of_testBit_eq
  intro i
  simp [Nat.testBit_shiftRight, Nat.testBit_xor]

theorem xor_left_comm (a b c : Nat) : a ^^^ (b ^^^ c) = b ^^^ (a ^^^ c) := by
  rw [← Nat.xor_assoc, Nat.xor_comm a b, Nat.xor_assoc]

theorem bitstep_linear (a b : Nat) : bitstep (a ^^^ b) = bitstep a ^^^ bitstep b := by
  unfold bitstep
  have hx : (a ^^^ b) &&& 1 = (a &&& 1) ^^^ (b &&& 1) := Nat.and_xor_distrib_right
  have ha : a &&& 1 = a % 2 := Nat.and_one_is_mod a
  have hb : b &&& 1 = b % 2 := Nat.and_one_is_mod b
  have hs : (a ^^^ b) >>> 1 = (a >>> 1) ^^^ (b >>> 1) := xor_shiftRight a b 1
  rcases Nat.mod_two_eq_zero_or_one a with h1 | h1 <;>
    rcases Nat.mod_two_eq_zero_or_one b with h2 | h2 <;>
      simp only [hx, ha, hb, h1, h2] <;>
        simp [hs, Nat.xor_assoc, Nat.xor_comm, xor_left_comm] <;>
          rw [← Nat.xor_assoc, Nat.xor_self, Nat.zero_xor]

theorem iterate_bitstep_linear (k a b : Nat) :
    bitstep^[k] (a ^^^ b) = bitstep^[k] a ^^^ bitstep^[k] b := by
  induction k generalizing a b with
  | zero => rfl
  | succ k ih =>
    rw [Function.iterate_succ_apply, Function.iterate_succ_apply,
      Function.iterate_succ_apply, bitstep_linear, ih]

theorem crcTable_linear (a b : Nat) : crcTable (a ^^^ b) = crcTable a ^^^ crcTable b :=
  iterate_bitstep_linear 8 a b

theorem zstep_eq (r : Nat) : zstep r = (r >>> 8) ^^^ crcTable (r &&& 0xFF) := by
  simp [zstep, crcStep]

theorem zstep_linear (a b : Nat) : zstep (a ^^^ b) = zstep a ^^^ zstep b := by
  rw [zstep_eq, zstep_eq, zstep_eq, xor_shiftRight, Nat.and_xor_distrib_right,
    crcTable_linear]
  rw [Nat.xor_assoc, Nat.xor_assoc]
  rw [xor_left_comm (b >>> 8)]

theorem zshift_linear (n a b : Nat) : zshift n (a ^^^ b) = zshift n a ^^^ zshift n b := by
  unfold zshift
  induction n generalizing a b with
  | zero => rfl
  | succ k ih =>
    rw [Function.iterate_succ_apply, Function.iterate_succ_apply,
      Function.iterate_succ_apply, zstep_linear, ih]

theorem crcStep_decompose (r b : Nat) :
    crcStep r b = zstep r ^^^ crcTable (b &&& 0xFF) := by
  rw [zstep_eq, crcStep, Nat.and_xor_distrib_right, crcTable_linear, Nat.xor_assoc]

theorem crcStep_xor (r s b : Nat) : crcStep (r ^^^ s) b = crcStep r b ^^^ zstep s := by
  rw [crcStep_decompose, crcStep_decompose, zstep_linear]
  rw [Nat.xor_assoc, Nat.xor_assoc, Nat.xor_comm (zstep s)]

/-- The CRC register is affine in its initial value: xoring `s` into the
initial register xors `zshift |bs| s` into the final register. -/
theorem crcRaw_xor (bs : List Nat) (r s : Nat) :
    crcRaw (r ^^^ s) bs = crcRaw r bs ^^^ zshift bs.length s := by
  induction bs generalizing r s with
  | nil => rfl
  | cons b bs ih =>
    show crcRaw (crcStep (r ^^^ s) b) bs = crcRaw (crcStep r b) bs ^^^ _
    rw [crcStep_xor, ih]
    rw [List.length_cons]
    rfl

theorem crcRaw_append (r : Nat) (A B : List Nat) :
    crcRaw r (A ++ B) = crcRaw (crcRaw r A) B :=
  List.foldl_append ..

/-- CRC32-combine correctness for a pair: combining the finalized CRC32s of
`A` and `B` with `B`'s length yields the CRC32 of the concatenation. -/
theorem crc32_append (A B : List Nat) :
    crc32 (A ++ B) = crc32Combine (crc32 A) (crc32 B) B.length := by
  unfold crc32 crc32Combine
  rw [crcRaw_append]
  have key : crcRaw (crcRaw 0xFFFFFFFF A) B
      = crcRaw 0xFFFFFFFF B ^^^ zshift B.length (crcRaw 0xFFFFFFFF A ^^^ 0xFFFFFFFF) := by
    have h1 : crcRaw 0xFFFFFFFF A = 0xFFFFFFFF ^^^ (crcRaw 0xFFFFFFFF A ^^^ 0xFFFFFFFF) := by
      rw [Nat.xor_comm (crcRaw 0xFFFFFFFF A), ← Nat.xor_assoc, Nat.xor_self, Nat.zero_xor]
    conv_lhs => rw [h1]
    rw [crcRaw_xor]
  rw [key, zshift_linear]
  simp [Nat.xor_assoc, Nat.xor_comm, xor_left_comm]

theorem crc32_nil : crc32 [] = 0 := by
  simp [crc32, crcRaw]

/-- Folding the combiner over the (CRC32, length) pairs of `cs`, starting
from the CRC32 of an arbitrary already-combined prefix `X`, yields the CRC32
of `X` followed by the concatenation of `cs`. -/
theorem crc32CombineAll_go (cs : List (List Nat)) (X : List Nat) :
    (cs.map fun c => (crc32 c, c.length)).foldl
      (fun acc p => crc32Combine acc p.1 p.2) (crc32 X)
    = crc32 (X ++ cs.flatten) := by
  induction cs generalizing X with
  | nil => simp
  | cons c cs ih =>
    simp only [List.map_cons, List.foldl_cons, List.flatten_cons]
    rw [← crc32_append, ih, List.append_assoc]

end Crc


namespace Crc

/-- C1: for every byte sequence and every partition of it into an ordered
list of consecutive chunks, feeding the Checksum Combiner the ordered
(CRC32, byte-length) pairs of the chunks yields bit-identically the CRC32 of
the whole concatenated byte sequence. -/
theorem combiner_correct (chunks : List (List Nat)) :
    crc32CombineAll (chunks.map fun c => (crc32 c, c.length)) = crc32 chunks.flatten := by
  unfold crc32CombineAll
  rw [show (0 : Nat) = crc32 [] from crc32_nil.symm, crc32CombineAll_go, List.nil_append]

end Crc

namespace Wfs

/-- C10: `FileDB.FileExists` ignores its change-time argument — the result
depends only on (path, source host, modification time); the `ctime` the
query scans is never compared against the `ctime` parameter. -/
theorem FileExists_ignores_ctime (rows : List FileRow) (path host : String)
    (modtime t1 t2 : Int) :
    FileExists rows path host modtime t1 = FileExists rows path host modtime t2 := rfl

/-- C5 (code bug evidence): the `files` table `FileDB.initSchema` creates
has no `hash` (or `checksum`) column, and `FileDB.AddFile`'s INSERT stores
none, yet `FileDB.GetFile`'s SELECT reads a `hash` column back — so the
whole-file checksum of a committed FileRecord is neither durably stored nor
readable from the store this schema creates. -/
theorem checksum_column_missing :
    "hash" ∉ initSchemaColumns ∧ "checksum" ∉ initSchemaColumns ∧
    "hash" ∉ addFileInsertColumns ∧ "checksum" ∉ addFileInsertColumns ∧
    "hash" ∈ getFileSelectColumns := by
  decide

end Wfs

namespace Bwfs

/-- C4: the server's file-level decision in `handleFileRequest` is "needed"
(SEND) exactly when no stored row matches (path, source host, modification
time); on an exact match the file is skipped and the store is untouched (no
chunk hashing or chunk processing happens on the skip path — none exists in
this handler at all). -/
theorem handleFileRequest_skip_correct (rows : List Wfs.FileRow) (fi : IncomingFile)
    (host : String) (mkRow : IncomingFile → String → Wfs.FileRow) :
    ((handleFileRequest rows fi host mkRow).1 = .needed ↔
      ¬ ∃ r ∈ rows, r.sourceHost = host ∧ r.path = fi.path ∧ r.modtime = fi.modTime) ∧
    (handleFileRequest rows fi host mkRow).2 =
      (if (handleFileRequest rows fi host mkRow).1 = .skip then rows
       else rows ++ [mkRow fi host]) := by
  have hex : Wfs.FileExists rows fi.path host fi.modTime fi.ctime = true ↔
      ∃ r ∈ rows, r.sourceHost = host ∧ r.path = fi.path ∧ r.modtime = fi.modTime := by
    simp [Wfs.FileExists, List.any_eq_true, Bool.and_eq_true, beq_iff_eq, and_assoc]
  unfold handleFileRequest
  by_cases h : Wfs.FileExists rows fi.path host fi.modTime fi.ctime = true
  · rw [if_pos h]
    simp [hex.mp h]
  · rw [if_neg h]
    have : ¬ ∃ r ∈ rows, r.sourceHost = host ∧ r.path = fi.path ∧ r.modtime = fi.modTime :=
      fun hc => h (hex.mpr hc)
    simp [this]

end Bwfs

namespace Brfs

theorem sessionError_eq_none (i : Nat) (s : SessionOutcome) :
    sessionError i s = none ↔ s.setupErr = none ∧ s.processErr = none := by
  unfold sessionError
  cases h1 : s.setupErr <;> cases h2 : s.processErr <;> simp

theorem collectErrors_eq_nil (i : Nat) (ss : List SessionOutcome) :
    collectErrors i ss = [] ↔ ∀ s ∈ ss, s.setupErr = none ∧ s.processErr = none := by
  induction ss generalizing i with
  | nil => simp [collectErrors]
  | cons s ss ih =>
    unfold collectErrors
    cases hse : sessionError i s with
    | none =>
      rw [ih]
      have hs := (sessionError_eq_none i s).mp hse
      simp [List.forall_mem_cons, hs]
    | some e =>
      have hfail : ¬ (s.setupErr = none ∧ s.processErr = none) := by
        intro hc
        rw [(sessionError_eq_none i s).mpr hc] at hse
        cases hse
      constructor
      · intro h
        exact absurd h (List.cons_ne_nil e _)
      · intro h
        exact absurd (h s (List.mem_cons_self s ss)) hfail

/-- C7: the stream coordinator reports overall success (nil error) exactly
when every launched session completed without error, and reports a non-nil
error exactly when some session's setup or processing failed.  Each
session's outcome is an independent input: no session's result depends on
another's. -/
theorem processStreams_fails_iff (sessions : List SessionOutcome) :
    processStreams sessions = none ↔
      ∀ s ∈ sessions, s.setupErr = none ∧ s.processErr = none := by
  unfold processStreams
  rcases h : collectErrors 0 sessions with _ | ⟨e, es⟩
  · simpa using (collectErrors_eq_nil 0 sessions).mp h
  · simp only [reduceCtorEq, false_iff]
    intro hall
    have := (collectErrors_eq_nil 0 sessions).mpr hall
    rw [h] at this
    exact List.cons_ne_nil e es this

end Brfs

namespace Chunker

theorem hexEncode_length (bs : List Nat) : (hexEncode bs).length = 2 * bs.length := by
  induction bs with
  | nil => rfl
  | cons b bs ih =>
    show (hexByte b ++ hexEncode bs).length = 2 * (bs.length + 1)
    rw [List.length_append, ih]
    simp [hexByte]
    ring

/-- C2 (code bug evidence): `ChunkFile` is the source's acknowledged MVP
placeholder ("returns a single chunk containing the entire file ... TODO:
Implement proper chunking algorithm later").  On a 1 MiB file it produces a
single chunk of 1,048,576 bytes — more than the design's 512 KiB maximum —
although the chunks do still concatenate to exactly the file's content. -/
theorem ChunkFile_exceeds_max_chunk_size :
    ((ChunkFile (fun _ => List.replicate 8 0) (List.replicate 1048576 0)).map Chunk.Data).flatten
      = List.replicate 1048576 0 ∧
    (ChunkFile (fun _ => List.replicate 8 0) (List.replicate 1048576 0)).length = 1 ∧
    maxChunkSize <
      (((ChunkFile (fun _ => List.replicate 8 0) (List.replicate 1048576 0)).headD
        { Data := [], Checksum := [] }).Data).length := by
  have hflat : ∀ content : List Nat,
      ((ChunkFile (fun _ => List.replicate 8 0) content).map Chunk.Data).flatten = content := by
    intro content
    simp [ChunkFile]
  refine ⟨hflat _, rfl, ?_⟩
  show maxChunkSize < (List.replicate 1048576 (0 : Nat)).length
  rw [List.length_replicate]
  norm_num [maxChunkSize]

/-- C3 counterexample: the digest the chunker attaches is the hex encoding
of an 8-byte (64-bit) truncated BLAKE3 digest — 16 hex characters — not a
128-bit (32 hex characters) or 256-bit (64 hex characters) digest as the
claim states.  The hasher is instantiated with any function honouring the
`blake3.New(8, nil)` 8-byte output contract. -/
theorem chunk_digest_is_not_128bit :
    (calculateChecksum (fun _ => List.replicate 8 0) [0]).length = 16 ∧
    ¬ ((calculateChecksum (fun _ => List.replicate 8 0) [0]).length = 32 ∨
       (calculateChecksum (fun _ => List.replicate 8 0) [0]).length = 64) := by
  decide

/-- C3 as amended: every chunk `ChunkFile` produces carries exactly the
digest of its own content bytes, that digest is the 64-bit truncated BLAKE3
(8 digest bytes, 16 hex characters), and the file-level digest is the same
function applied to the whole file's bytes. -/
theorem chunk_digest_correct (H : List Nat → List Nat)
    (hH : ∀ d, (H d).length = 8) (content : List Nat) :
    (∀ c ∈ ChunkFile H content,
      c.Checksum = calculateChecksum H c.Data ∧ c.Checksum.length = 16) ∧
    CalculateFileChecksum H content = calculateChecksum H content := by
  refine ⟨?_, rfl⟩
  intro c hc
  rw [show ChunkFile H content
      = [{ Data := content, Checksum := calculateChecksum H content }] from rfl,
    List.mem_singleton] at hc
  subst hc
  refine ⟨rfl, ?_⟩
  show (hexEncode (H content)).length = 16
  rw [hexEncode_length, hH]

/-- Witness for the amended C3 at a concrete hasher and content. -/
theorem chunk_digest_correct_witness :
    (∀ c ∈ ChunkFile (fun _ => List.replicate 8 0) [1, 2, 3],
      c.Checksum = calculateChecksum (fun _ => List.replicate 8 0) c.Data ∧
      c.Checksum.length = 16) ∧
    CalculateFileChecksum (fun _ => List.replicate 8 0) [1, 2, 3]
      = calculateChecksum (fun _ => List.replicate 8 0) [1, 2, 3] :=
  chunk_digest_correct (fun _ => List.replicate 8 0) (fun _ => by simp) [1, 2, 3]

end Chunker

namespace Files

theorem splitChunks_length {α : Type} (fs : List α) (ss : List Nat) :
    (splitChunks fs ss).length = ss.length := by
  induction ss generalizing fs with
  | nil => rfl
  | cons s ss ih => simp [splitChunks, ih]

theorem splitChunks_map_length {α : Type} (fs : List α) (ss : List Nat)
    (hsum : ss.sum ≤ fs.length) :
    (splitChunks fs ss).map List.length = ss := by
  induction ss generalizing fs with
  | nil => rfl
  | cons s ss ih =>
    have hs : s ≤ fs.length := le_trans (Nat.le_add_right s ss.sum) (by simpa using hsum)
    have hrest : ss.sum ≤ (fs.drop s).length := by
      rw [List.length_drop]
      have : s + ss.sum ≤ fs.length := by simpa [List.sum_cons] using hsum
      omega
    simp [splitChunks, List.length_take, Nat.min_eq_left hs, ih _ hrest]

theorem splitChunks_flatten {α : Type} (fs : List α) (ss : List Nat)
    (hsum : ss.sum = fs.length) :
    (splitChunks fs ss).flatten = fs := by
  induction ss generalizing fs with
  | nil =>
    have : fs.length = 0 := hsum.symm
    rw [List.length_eq_zero] at this
    simp [splitChunks, this]
  | cons s ss ih =>
    have hrest : ss.sum = (fs.drop s).length := by
      rw [List.length_drop]
      have : s + ss.sum = fs.length := by simpa [List.sum_cons] using hsum
      omega
    show fs.take s ++ (splitChunks (fs.drop s) ss).flatten = fs
    rw [ih _ hrest, List.take_append_drop]

theorem sum_evenSizes (q r m : Nat) :
    ((List.range m).map fun i => q + if i < r then 1 else 0).sum = m * q + min r m := by
  induction m with
  | zero => simp
  | succ m ih =>
    rw [List.range_succ, List.map_append, List.sum_append, ih]
    simp only [List.map_cons, List.map_nil, List.sum_cons, List.sum_nil]
    rw [Nat.succ_mul]
    rcases Nat.lt_or_ge m r with h | h
    · rw [if_pos h, Nat.min_eq_right (Nat.le_of_lt h), Nat.min_eq_right h]
      generalize m * q = t
      omega
    · rw [if_neg (Nat.not_lt.mpr h), Nat.min_eq_left h, Nat.min_eq_left (Nat.le_succ_of_le h)]
      generalize m * q = t
      omega

theorem streamSizes_length (n len : Nat) : (streamSizes n len).length = n := by
  simp [streamSizes]

theorem streamSizes_sum (n len : Nat) (hn : 0 < n) : (streamSizes n len).sum = len := by
  unfold streamSizes
  rw [sum_evenSizes]
  rw [Nat.min_eq_left (Nat.le_of_lt (Nat.mod_lt len hn))]
  exact Nat.div_add_mod len n

/-- C6: for every file list and requested parallelism `N ≥ 1`,
`SplitByStreams` returns exactly `N` sublists whose concatenation in index
order is the input list (contiguous, disjoint, order-preserving, no gaps or
overlaps), with sublist `i` holding `len/N` files plus one extra for the
first `len%N` sublists — so any two sublists differ in length by at most
one, and the longer ones come first. -/
theorem SplitByStreams_even_partition {α : Type} (files : List α) (N : Int) (hN : 1 ≤ N) :
    (SplitByStreams files N).length = N.toNat ∧
    (SplitByStreams files N).flatten = files ∧
    (SplitByStreams files N).map List.length
      = (List.range N.toNat).map
          (fun i => files.length / N.toNat + if i < files.length % N.toNat then 1 else 0) := by
  unfold SplitByStreams
  rw [if_neg (by omega : ¬ N ≤ 0)]
  by_cases h1 : N = 1
  · subst h1
    rw [if_pos rfl]
    refine ⟨rfl, by simp, ?_⟩
    show [files.length] = (List.range 1).map _
    rw [show List.range 1 = [0] from rfl]
    simp [Nat.mod_one]
  · rw [if_neg h1]
    have hn : 0 < N.toNat := by omega
    refine ⟨?_, ?_, ?_⟩
    · rw [splitChunks_length, streamSizes_length]
    · exact splitChunks_flatten _ _ (streamSizes_sum N.toNat files.length hn)
    · exact splitChunks_map_length _ _ (le_of_eq (streamSizes_sum N.toNat files.length hn))

/-- Witness for C6: seven files split across three streams come out as the
contiguous sublists of sizes 3, 2, 2. -/
theorem SplitByStreams_even_partition_witness :
    (1 : Int) ≤ 3 ∧
    ((SplitByStreams [0, 1, 2, 3, 4, 5, 6] (3 : Int)).length = (3 : Int).toNat ∧
     (SplitByStreams [0, 1, 2, 3, 4, 5, 6] (3 : Int)).flatten = [0, 1, 2, 3, 4, 5, 6] ∧
     (SplitByStreams [0, 1, 2, 3, 4, 5, 6] (3 : Int)).map List.length
       = (List.range (3 : Int).toNat).map
           (fun i => ([0, 1, 2, 3, 4, 5, 6] : List Nat).length / (3 : Int).toNat +
             if i < ([0, 1, 2, 3, 4, 5, 6] : List Nat).length % (3 : Int).toNat then 1 else 0)) :=
  ⟨by decide, SplitByStreams_even_partition [0, 1, 2, 3, 4, 5, 6] 3 (by decide)⟩

end Files

namespace GoStr

theorem digitVal_digitChar (d : Nat) (h : d < 10) : digitVal (digitChar d) = d := by
  interval_cases d <;> rfl

theorem isDigit_digitChar (d : Nat) (h : d < 10) : (digitChar d).isDigit = true := by
  interval_cases d <;> rfl

theorem isDigit_ne_dash (c : Char) (h : c.isDigit = true) : c ≠ '-' := by
  intro hc
  subst hc
  exact absurd h (by decide)

theorem isDigit_ne_plus (c : Char) (h : c.isDigit = true) : c ≠ '+' := by
  intro hc
  subst hc
  exact absurd h (by decide)

theorem isDigit_ne_semi (c : Char) (h : c.isDigit = true) : c ≠ ';' := by
  intro hc
  subst hc
  exact absurd h (by decide)

theorem isDigit_ne_colon (c : Char) (h : c.isDigit = true) : c ≠ ':' := by
  intro hc
  subst hc
  exact absurd h (by decide)

theorem foldr_digits (ds : List Nat) :
    ds.foldr (fun d a => a * 10 + d) 0 = Nat.ofDigits 10 ds := by
  induction ds with
  | nil => simp [Nat.ofDigits_nil]
  | cons d ds ih =>
    rw [List.foldr_cons, ih, Nat.ofDigits_cons]
    push_cast
    omega

theorem foldr_digitVal_map (ds : List Nat) (h : ∀ d ∈ ds, d < 10) :
    (ds.map digitChar).foldr (fun c a => a * 10 + digitVal c) 0
      = ds.foldr (fun d a => a * 10 + d) 0 := by
  induction ds with
  | nil => rfl
  | cons d ds ih =>
    rw [List.map_cons, List.foldr_cons, List.foldr_cons,
      ih (fun x hx => h x (List.mem_cons_of_mem d hx)),
      digitVal_digitChar d (h d (List.mem_cons_self d ds))]

theorem natToCharsAux_eq (fuel n : Nat) (h : n ≤ fuel) :
    natToCharsAux fuel n = (Nat.digits 10 n).reverse.map digitChar := by
  induction fuel generalizing n with
  | zero =>
    have hn : n = 0 := Nat.le_zero.mp h
    subst hn
    simp [natToCharsAux]
  | succ fuel ih =>
    by_cases h0 : n = 0
    · subst h0
      simp [natToCharsAux]
    · have hpos : 0 < n := Nat.pos_of_ne_zero h0
      rw [show natToCharsAux (fuel + 1) n
          = natToCharsAux fuel (n / 10) ++ [digitChar (n % 10)] from by
        simp [natToCharsAux, h0]]
      rw [Nat.digits_def' (by norm_num : 1 < 10) hpos]
      rw [List.reverse_cons, List.map_append]
      have hdiv : n / 10 ≤ fuel := by
        have := Nat.div_lt_self hpos (by norm_num : 1 < 10)
        omega
      rw [ih (n / 10) hdiv]
      rfl

theorem natToChars_eq_digits (n : Nat) :
    natToChars n = if n = 0 then ['0'] else ((Nat.digits 10 n).reverse.map digitChar) := by
  unfold natToChars
  by_cases h0 : n = 0
  · simp [h0]
  · rw [if_neg h0, if_neg h0, natToCharsAux_eq n n le_rfl]

theorem decValue_natToChars (n : Nat) : decValue (natToChars n) = n := by
  rw [natToChars_eq_digits]
  by_cases h0 : n = 0
  · subst h0
    rfl
  · rw [if_neg h0]
    unfold decValue
    rw [show (Nat.digits 10 n).reverse.map digitChar
        = ((Nat.digits 10 n).map digitChar).reverse from by rw [List.map_reverse]]
    rw [List.foldl_reverse]
    have hd : ∀ d ∈ Nat.digits 10 n, d < 10 :=
      fun d hd => Nat.digits_lt_base (by norm_num) hd
    calc (List.map digitChar (Nat.digits 10 n)).foldr (fun x y => y * 10 + digitVal x) 0
        = (Nat.digits 10 n).foldr (fun d a => a * 10 + d) 0 := foldr_digitVal_map _ hd
      _ = Nat.ofDigits 10 (Nat.digits 10 n) := foldr_digits _
      _ = n := Nat.ofDigits_digits 10 n

theorem natToChars_ne_nil (n : Nat) : natToChars n ≠ [] := by
  rw [natToChars_eq_digits]
  by_cases h0 : n = 0
  · simp [h0]
  · rw [if_neg h0]
    intro h
    rw [List.map_eq_nil_iff, List.reverse_eq_nil_iff] at h
    exact h0 (Nat.digits_eq_nil_iff_eq_zero.mp h)

theorem natToChars_all_digits (n : Nat) : ∀ c ∈ natToChars n, c.isDigit = true := by
  rw [natToChars_eq_digits]
  by_cases h0 : n = 0
  · rw [if_pos h0]
    intro c hc
    rw [List.mem_singleton] at hc
    subst hc
    rfl
  · rw [if_neg h0]
    intro c hc
    rw [List.mem_map] at hc
    obtain ⟨d, hd, rfl⟩ := hc
    rw [List.mem_reverse] at hd
    exact isDigit_digitChar d (Nat.digits_lt_base (by norm_num) hd)

theorem goParseUint32_natToChars (m : Nat) (h : m < 2 ^ 32) :
    goParseUint32 (natToChars m) = some m := by
  unfold goParseUint32
  rw [if_neg (natToChars_ne_nil m),
    if_pos (List.all_eq_true.mpr fun c hc => natToChars_all_digits m c hc),
    decValue_natToChars]
  rw [if_pos h]

theorem goParseInt_intToChars (i : Int) (h1 : -(2 ^ 63) ≤ i) (h2 : i ≤ 2 ^ 63 - 1) :
    goParseInt (intToChars i) = some i := by
  have hall : (natToChars i.natAbs).all Char.isDigit = true :=
    List.all_eq_true.mpr fun c hc => natToChars_all_digits _ c hc
  by_cases hi : i < 0
  · have henc : intToChars i = '-' :: natToChars i.natAbs := if_pos hi
    have habs : (i.natAbs : Int) = -i := Int.ofNat_natAbs_of_nonpos (le_of_lt hi)
    have hrange : ¬ (-(decValue (natToChars i.natAbs) : Int) < -(2 ^ 63) ∨
        (2 ^ 63 - 1 : Int) < -(decValue (natToChars i.natAbs) : Int)) := by
      rw [decValue_natToChars, habs]
      omega
    have hp : (2 : Int) ^ 63 = 9223372036854775808 := by norm_num
    rw [henc]
    simp only [goParseInt, List.headD_cons, List.tail_cons]
    simp [natToChars_ne_nil, hall, hrange, decValue_natToChars, habs]
    omega
  · push_neg at hi
    have henc : intToChars i = natToChars i.toNat := if_neg (by omega)
    obtain ⟨c, cs, hcons⟩ := List.exists_cons_of_ne_nil (natToChars_ne_nil i.toNat)
    have hcdig : c.isDigit = true := by
      apply natToChars_all_digits i.toNat
      rw [hcons]
      exact List.mem_cons_self c cs
    have hne1 : c ≠ '-' := isDigit_ne_dash c hcdig
    have hne2 : c ≠ '+' := isDigit_ne_plus c hcdig
    have hall2 : (c :: cs).all Char.isDigit = true := by
      rw [← hcons]
      exact List.all_eq_true.mpr fun x hx => natToChars_all_digits _ x hx
    have hdec : decValue (c :: cs) = i.toNat := by
      rw [← hcons, decValue_natToChars]
    have htn : ((i.toNat : Int)) = i := Int.toNat_of_nonneg hi
    have hrange : ¬ (((i.toNat : Nat) : Int) < -(2 ^ 63) ∨
        (2 ^ 63 - 1 : Int) < ((i.toNat : Nat) : Int)) := by
      rw [htn]
      omega
    have hp : (2 : Int) ^ 63 = 9223372036854775808 := by norm_num
    rw [henc, hcons]
    simp only [goParseInt, List.headD_cons, List.tail_cons]
    simp [hne1, hne2, hall2, hdec, hrange, htn]
    omega

end GoStr

namespace GoStr

theorem takeWhile_sep (sep : Char) (a b : List Char) (ha : sep ∉ a) :
    (a ++ sep :: b).takeWhile (· ≠ sep) = a ∧
    (a ++ sep :: b).dropWhile (· ≠ sep) = sep :: b := by
  induction a with
  | nil =>
    constructor
    · show List.takeWhile _ (sep :: b) = []
      simp [List.takeWhile_cons]
    · show List.dropWhile _ (sep :: b) = sep :: b
      simp [List.dropWhile_cons]
  | cons c a ih =>
    have hc : c ≠ sep := by
      intro h
      exact ha (h ▸ List.mem_cons_self c a)
    have hrest : sep ∉ a := fun h => ha (List.mem_cons_of_mem c h)
    obtain ⟨h1, h2⟩ := ih hrest
    have hcond : (decide (c ≠ sep)) = true := by simp [hc]
    constructor
    · show List.takeWhile _ (c :: (a ++ sep :: b)) = c :: a
      rw [List.takeWhile_cons, if_pos hcond, h1]
    · show List.dropWhile _ (c :: (a ++ sep :: b)) = sep :: b
      rw [List.dropWhile_cons, if_pos hcond, h2]

theorem goSplitN_sep_cons (sep : Char) (a b : List Char) (n : Nat) (ha : sep ∉ a) :
    goSplitN sep (a ++ sep :: b) (n + 2) = a :: goSplitN sep b (n + 1) := by
  have hmem : sep ∈ a ++ sep :: b := List.mem_append_right a (List.mem_cons_self sep b)
  obtain ⟨h1, h2⟩ := takeWhile_sep sep a b ha
  show (if sep ∈ a ++ sep :: b then _ :: goSplitN sep _ (n + 1) else [a ++ sep :: b])
      = a :: goSplitN sep b (n + 1)
  rw [if_pos hmem, h1, h2]
  rfl

theorem semi_not_mem_natToChars (n : Nat) : ';' ∉ natToChars n := fun h =>
  isDigit_ne_semi ';' (natToChars_all_digits n ';' h) rfl

theorem semi_not_mem_intToChars (i : Int) : ';' ∉ intToChars i := by
  unfold intToChars
  by_cases hi : i < 0
  · rw [if_pos hi]
    intro h
    rcases List.mem_cons.mp h with h | h
    · exact absurd h (by decide)
    · exact semi_not_mem_natToChars _ h
  · rw [if_neg hi]
    exact semi_not_mem_natToChars _

theorem colon_not_mem_of_goParseInt_some (s : List Char) (h : (goParseInt s).isSome) :
    ':' ∉ s := by
  intro hmem
  unfold goParseInt at h
  by_cases h0 : s = []
  · subst h0
    cases hmem
  · rw [if_neg h0] at h
    obtain ⟨c, cs, rfl⟩ := List.exists_cons_of_ne_nil h0
    simp only [List.headD_cons, List.tail_cons] at h
    by_cases hsign : c = '-' ∨ c = '+'
    · rw [if_pos hsign] at h
      by_cases hnil : cs = []
      · rw [if_pos hnil] at h
        simp at h
      · rw [if_neg hnil] at h
        by_cases hdig : cs.all Char.isDigit = true
        · rcases List.mem_cons.mp hmem with hc | hc
          · rcases hsign with hs | hs <;> rw [hs] at hc <;> exact absurd hc (by decide)
          · exact isDigit_ne_colon ':' (List.all_eq_true.mp hdig ':' hc) rfl
        · rw [if_neg hdig] at h
          simp at h
    · rw [if_neg hsign] at h
      rw [if_neg (List.cons_ne_nil c cs)] at h
      by_cases hdig : (c :: cs).all Char.isDigit = true
      · exact isDigit_ne_colon ':' (List.all_eq_true.mp hdig ':' hmem) rfl
      · rw [if_neg hdig] at h
        simp at h

end GoStr

namespace Protocol

/-- C9 as amended: decoding the wire message built for a `FileInfo` whose
three timestamps are whole seconds (no sub-second part) yields a `FileInfo`
with the same path (even when the path contains the `;` field separator),
size, mode, owner, group, modTime, accessTime and changeTime.  The bounds
hypotheses state what the Go types already guarantee (`int64` size and
seconds, `uint32` mode/owner/group, a one-byte file-type tag that is not the
separator).  Unconditionally (without the whole-second hypotheses) the claim
is false: the encoding sends `Unix()` seconds only, see the counterexample
`Protocol.ParseFileMetadata_drops_subseconds`. -/
theorem ParseFileMetadata_roundtrip (file : FileInfo)
    (hft : file.FileType ≠ ';')
    (hsize1 : -(2 ^ 63) ≤ file.Size) (hsize2 : file.Size ≤ 2 ^ 63 - 1)
    (hmode : file.Mode < 2 ^ 32) (howner : file.Owner < 2 ^ 32) (hgroup : file.Group < 2 ^ 32)
    (hmt1 : -(2 ^ 63) ≤ file.ModTime.sec) (hmt2 : file.ModTime.sec ≤ 2 ^ 63 - 1)
    (hat1 : -(2 ^ 63) ≤ file.AccessTime.sec) (hat2 : file.AccessTime.sec ≤ 2 ^ 63 - 1)
    (hct1 : -(2 ^ 63) ≤ file.ChangeTime.sec) (hct2 : file.ChangeTime.sec ≤ 2 ^ 63 - 1)
    (hmtn : file.ModTime.nsec = 0) (hatn : file.AccessTime.nsec = 0)
    (hctn : file.ChangeTime.nsec = 0) :
    ParseFileMetadata (SendFileMetadata file) = some
      { Path := file.Path, Name := [], FileType := file.FileType, Size := file.Size,
        Mode := file.Mode, Owner := file.Owner, Group := file.Group,
        ModTime := file.ModTime, AccessTime := file.AccessTime,
        ChangeTime := file.ChangeTime, SymlinkTarget := [] } := by
  obtain ⟨path, name, ft, size, mode, owner, group, mt, atv, ct, slt⟩ := file
  obtain ⟨mts, mtn⟩ := mt
  obtain ⟨ats, atn⟩ := atv
  obtain ⟨cts, ctn⟩ := ct
  have hmtn' : mtn = 0 := hmtn
  have hatn' : atn = 0 := hatn
  have hctn' : ctn = 0 := hctn
  subst hmtn' hatn' hctn'
  have hft' : ft ≠ ';' := hft
  have h0 : (';' : Char) ∉ [ft] := by
    intro h
    rw [List.mem_singleton] at h
    exact hft' h.symm
  have h1 := GoStr.semi_not_mem_intToChars size
  have h2 := GoStr.semi_not_mem_natToChars mode
  have h3 := GoStr.semi_not_mem_natToChars owner
  have h4 := GoStr.semi_not_mem_natToChars group
  have h5 := GoStr.semi_not_mem_intToChars mts
  have h6 := GoStr.semi_not_mem_intToChars ats
  have h7 := GoStr.semi_not_mem_intToChars cts
  have hmsg : SendFileMetadata
      { Path := path, Name := name, FileType := ft, Size := size, Mode := mode,
        Owner := owner, Group := group, ModTime := ⟨mts, 0⟩, AccessTime := ⟨ats, 0⟩,
        ChangeTime := ⟨cts, 0⟩, SymlinkTarget := slt }
      = "FILE:".data ++ ([ft] ++ ';' :: (GoStr.intToChars size ++ ';' ::
          (GoStr.natToChars mode ++ ';' :: (GoStr.natToChars owner ++ ';' ::
          (GoStr.natToChars group ++ ';' :: (GoStr.intToChars mts ++ ';' ::
          (GoStr.intToChars ats ++ ';' :: (GoStr.intToChars cts ++ ';' :: path)))))))) := by
    simp [SendFileMetadata, List.append_assoc]
  rw [hmsg]
  have e1 := GoStr.goSplitN_sep_cons ';' [ft]
    (GoStr.intToChars size ++ ';' :: (GoStr.natToChars mode ++ ';' ::
      (GoStr.natToChars owner ++ ';' :: (GoStr.natToChars group ++ ';' ::
      (GoStr.intToChars mts ++ ';' :: (GoStr.intToChars ats ++ ';' ::
      (GoStr.intToChars cts ++ ';' :: path))))))) 7 h0
  have e2 := GoStr.goSplitN_sep_cons ';' (GoStr.intToChars size)
    (GoStr.natToChars mode ++ ';' :: (GoStr.natToChars owner ++ ';' ::
      (GoStr.natToChars group ++ ';' :: (GoStr.intToChars mts ++ ';' ::
      (GoStr.intToChars ats ++ ';' :: (GoStr.intToChars cts ++ ';' :: path)))))) 6 h1
  have e3 := GoStr.goSplitN_sep_cons ';' (GoStr.natToChars mode)
    (GoStr.natToChars owner ++ ';' :: (GoStr.natToChars group ++ ';' ::
      (GoStr.intToChars mts ++ ';' :: (GoStr.intToChars ats ++ ';' ::
      (GoStr.intToChars cts ++ ';' :: path))))) 5 h2
  have e4 := GoStr.goSplitN_sep_cons ';' (GoStr.natToChars owner)
    (GoStr.natToChars group ++ ';' :: (GoStr.intToChars mts ++ ';' ::
      (GoStr.intToChars ats ++ ';' :: (GoStr.intToChars cts ++ ';' :: path)))) 4 h3
  have e5 := GoStr.goSplitN_sep_cons ';' (GoStr.natToChars group)
    (GoStr.intToChars mts ++ ';' :: (GoStr.intToChars ats ++ ';' ::
      (GoStr.intToChars cts ++ ';' :: path))) 3 h4
  have e6 := GoStr.goSplitN_sep_cons ';' (GoStr.intToChars mts)
    (GoStr.intToChars ats ++ ';' :: (GoStr.intToChars cts ++ ';' :: path)) 2 h5
  have e7 := GoStr.goSplitN_sep_cons ';' (GoStr.intToChars ats)
    (GoStr.intToChars cts ++ ';' :: path) 1 h6
  have e8 := GoStr.goSplitN_sep_cons ';' (GoStr.intToChars cts) path 0 h7
  have hparts : GoStr.goSplitN ';' ([ft] ++ ';' :: (GoStr.intToChars size ++ ';' ::
      (GoStr.natToChars mode ++ ';' :: (GoStr.natToChars owner ++ ';' ::
      (GoStr.natToChars group ++ ';' :: (GoStr.intToChars mts ++ ';' ::
      (GoStr.intToChars ats ++ ';' :: (GoStr.intToChars cts ++ ';' :: path)))))))) 9
      = [[ft], GoStr.intToChars size, GoStr.natToChars mode, GoStr.natToChars owner,
         GoStr.natToChars group, GoStr.intToChars mts, GoStr.intToChars ats,
         GoStr.intToChars cts, path] := by
    rw [e1, e2, e3, e4, e5, e6, e7, e8]
    rfl
  simp only [ParseFileMetadata]
  have hpre : ("FILE:".data).isPrefixOf
      ("FILE:".data ++ ([ft] ++ ';' :: (GoStr.intToChars size ++ ';' ::
        (GoStr.natToChars mode ++ ';' :: (GoStr.natToChars owner ++ ';' ::
        (GoStr.natToChars group ++ ';' :: (GoStr.intToChars mts ++ ';' ::
        (GoStr.intToChars ats ++ ';' :: (GoStr.intToChars cts ++ ';' :: path))))))))) = true := by
    simp
  have hdrop : (("FILE:".data ++ ([ft] ++ ';' :: (GoStr.intToChars size ++ ';' ::
      (GoStr.natToChars mode ++ ';' :: (GoStr.natToChars owner ++ ';' ::
      (GoStr.natToChars group ++ ';' :: (GoStr.intToChars mts ++ ';' ::
      (GoStr.intToChars ats ++ ';' :: (GoStr.intToChars cts ++ ';' :: path))))))))) : List Char).drop 5
      = ([ft] ++ ';' :: (GoStr.intToChars size ++ ';' ::
      (GoStr.natToChars mode ++ ';' :: (GoStr.natToChars owner ++ ';' ::
      (GoStr.natToChars group ++ ';' :: (GoStr.intToChars mts ++ ';' ::
      (GoStr.intToChars ats ++ ';' :: (GoStr.intToChars cts ++ ';' :: path)))))))) :=
    List.drop_left' rfl
  have hlen0 : ¬ (([ft] ++ ';' :: (GoStr.intToChars size ++ ';' ::
      (GoStr.natToChars mode ++ ';' :: (GoStr.natToChars owner ++ ';' ::
      (GoStr.natToChars group ++ ';' :: (GoStr.intToChars mts ++ ';' ::
      (GoStr.intToChars ats ++ ';' :: (GoStr.intToChars cts ++ ';' :: path)))))))).length = 0) := by
    simp
  rw [if_neg (not_not_intro hpre), hdrop, if_neg hlen0, hparts]
  have hq1 := GoStr.goParseInt_intToChars size hsize1 hsize2
  have hq2 := GoStr.goParseUint32_natToChars mode hmode
  have hq3 := GoStr.goParseUint32_natToChars owner howner
  have hq4 := GoStr.goParseUint32_natToChars group hgroup
  have hq5 := GoStr.goParseInt_intToChars mts hmt1 hmt2
  have hq6 := GoStr.goParseInt_intToChars ats hat1 hat2
  have hq7 := GoStr.goParseInt_intToChars cts hct1 hct2
  have g1 : ([[ft], GoStr.intToChars size, GoStr.natToChars mode, GoStr.natToChars owner,
      GoStr.natToChars group, GoStr.intToChars mts, GoStr.intToChars ats,
      GoStr.intToChars cts, path] : List (List Char)).getD 1 [] = GoStr.intToChars size := rfl
  have g2 : ([[ft], GoStr.intToChars size, GoStr.natToChars mode, GoStr.natToChars owner,
      GoStr.natToChars group, GoStr.intToChars mts, GoStr.intToChars ats,
      GoStr.intToChars cts, path] : List (List Char)).getD 2 [] = GoStr.natToChars mode := rfl
  have g3 : ([[ft], GoStr.intToChars size, GoStr.natToChars mode, GoStr.natToChars owner,
      GoStr.natToChars group, GoStr.intToChars mts, GoStr.intToChars ats,
      GoStr.intToChars cts, path] : List (List Char)).getD 3 [] = GoStr.natToChars owner := rfl
  have g4 : ([[ft], GoStr.intToChars size, GoStr.natToChars mode, GoStr.natToChars owner,
      GoStr.natToChars group, GoStr.intToChars mts, GoStr.intToChars ats,
      GoStr.intToChars cts, path] : List (List Char)).getD 4 [] = GoStr.natToChars group := rfl
  have g5 : ([[ft], GoStr.intToChars size, GoStr.natToChars mode, GoStr.natToChars owner,
      GoStr.natToChars group, GoStr.intToChars mts, GoStr.intToChars ats,
      GoStr.intToChars cts, path] : List (List Char)).getD 5 [] = GoStr.intToChars mts := rfl
  have g6 : ([[ft], GoStr.intToChars size, GoStr.natToChars mode, GoStr.natToChars owner,
      GoStr.natToChars group, GoStr.intToChars mts, GoStr.intToChars ats,
      GoStr.intToChars cts, path] : List (List Char)).getD 6 [] = GoStr.intToChars ats := rfl
  have g7 : ([[ft], GoStr.intToChars size, GoStr.natToChars mode, GoStr.natToChars owner,
      GoStr.natToChars group, GoStr.intToChars mts, GoStr.intToChars ats,
      GoStr.intToChars cts, path] : List (List Char)).getD 7 [] = GoStr.intToChars cts := rfl
  rw [if_pos (show
    ([[ft], GoStr.intToChars size, GoStr.natToChars mode, GoStr.natToChars owner,
      GoStr.natToChars group, GoStr.intToChars mts, GoStr.intToChars ats,
      GoStr.intToChars cts, path] : List (List Char)).length = 9 by rfl)]
  rw [g1, g2, g3, g4, g5, g6, g7]
  rw [hq1, hq2, hq3, hq4, hq5, hq6, hq7]
  rfl
end Protocol

namespace Protocol

/-- C9 counterexample: for a `FileInfo` whose modification time has a
nanosecond part (here 1 ns past a whole second), the decoded modTime is NOT
equal to the original — `SendFileMetadata` transmits `ModTime.Unix()`, which
truncates to seconds, and `ParseFileMetadata` rebuilds `time.Unix(n, 0)`. -/
theorem ParseFileMetadata_drops_subseconds :
    ((ParseFileMetadata (SendFileMetadata
      { Path := "/tmp/a".data, Name := "a".data, FileType := 'f', Size := 1, Mode := 420,
        Owner := 1000, Group := 1000, ModTime := ⟨1700000000, 1⟩,
        AccessTime := ⟨1700000000, 0⟩, ChangeTime := ⟨1700000000, 0⟩,
        SymlinkTarget := [] })).map FileInfo.ModTime)
      ≠ some (⟨1700000000, 1⟩ : GoTime) := by
  decide

/-- Witness for the amended C9 at a concrete `FileInfo` whose path contains
the `;` separator. -/
theorem ParseFileMetadata_roundtrip_witness :
    ParseFileMetadata (SendFileMetadata
      { Path := "/tmp/a;b".data, Name := "a;b".data, FileType := 'f', Size := 12345,
        Mode := 420, Owner := 1000, Group := 1000, ModTime := ⟨1700000000, 0⟩,
        AccessTime := ⟨1700000001, 0⟩, ChangeTime := ⟨-7, 0⟩,
        SymlinkTarget := [] }) = some
      { Path := "/tmp/a;b".data, Name := [], FileType := 'f', Size := 12345,
        Mode := 420, Owner := 1000, Group := 1000, ModTime := ⟨1700000000, 0⟩,
        AccessTime := ⟨1700000001, 0⟩, ChangeTime := ⟨-7, 0⟩,
        SymlinkTarget := [] } :=
  ParseFileMetadata_roundtrip
    { Path := "/tmp/a;b".data, Name := "a;b".data, FileType := 'f', Size := 12345,
      Mode := 420, Owner := 1000, Group := 1000, ModTime := ⟨1700000000, 0⟩,
      AccessTime := ⟨1700000001, 0⟩, ChangeTime := ⟨-7, 0⟩, SymlinkTarget := [] }
    (by decide) (by decide) (by decide) (by decide) (by decide) (by decide)
    (by decide) (by decide) (by decide) (by decide) (by decide) (by decide)
    rfl rfl rfl

end Protocol

namespace GoStr

theorem goSplit_ne_nil (sep : Char) (s : List Char) : goSplit sep s ≠ [] := by
  cases s with
  | nil => simp [goSplit]
  | cons c rest =>
    unfold goSplit
    by_cases hc : c = sep
    · simp [hc]
    · rw [if_neg hc]
      cases h : goSplit sep rest with
      | nil => simp
      | cons p ps => simp

theorem goSplit_of_not_mem (sep : Char) (s : List Char) (h : sep ∉ s) :
    goSplit sep s = [s] := by
  induction s with
  | nil => rfl
  | cons c rest ih =>
    have hc : c ≠ sep := by
      intro hc
      exact h (hc ▸ List.mem_cons_self c rest)
    have hrest : sep ∉ rest := fun hm => h (List.mem_cons_of_mem c hm)
    unfold goSplit
    rw [if_neg hc, ih hrest]

theorem goSplit_append_sep (sep : Char) (a b : List Char) (ha : sep ∉ a) :
    goSplit sep (a ++ sep :: b) = a :: goSplit sep b := by
  induction a with
  | nil =>
    show goSplit sep (sep :: b) = [] :: goSplit sep b
    conv_lhs => rw [goSplit]
    rw [if_pos rfl]
  | cons c a ih =>
    have hc : c ≠ sep := by
      intro hc
      exact ha (hc ▸ List.mem_cons_self c a)
    have hrest : sep ∉ a := fun hm => ha (List.mem_cons_of_mem c hm)
    show goSplit sep (c :: (a ++ sep :: b)) = (c :: a) :: goSplit sep b
    conv_lhs => rw [goSplit]
    rw [if_neg hc, ih hrest]

theorem goSplit_eq_singleton (sep : Char) (m p : List Char)
    (h : goSplit sep m = [p]) : m = p ∧ sep ∉ p := by
  induction m generalizing p with
  | nil =>
    have : p = [] := by
      have := h.symm
      rw [show goSplit sep [] = [[]] from rfl] at h
      exact (List.cons.injEq _ _ _ _).mp h |>.1 |>.symm
    subst this
    exact ⟨rfl, by simp⟩
  | cons c rest ih =>
    unfold goSplit at h
    by_cases hc : c = sep
    · rw [if_pos hc] at h
      obtain ⟨h1, h2⟩ := (List.cons.injEq _ _ _ _).mp h
      exact absurd h2 (goSplit_ne_nil sep rest)
    · rw [if_neg hc] at h
      cases hrest : goSplit sep rest with
      | nil => exact absurd hrest (goSplit_ne_nil sep rest)
      | cons q qs =>
        rw [hrest] at h
        obtain ⟨h1, h2⟩ := (List.cons.injEq _ _ _ _).mp h
        subst h2
        obtain ⟨hm, hnm⟩ := ih q hrest
        subst hm
        constructor
        · rw [← h1]
        · rw [← h1]
          intro hmem
          rcases List.mem_cons.mp hmem with hx | hx
          · exact hc hx.symm
          · exact hnm hx

theorem goSplit_eq_pair (sep : Char) (m p0 p1 : List Char)
    (h : goSplit sep m = [p0, p1]) :
    m = p0 ++ sep :: p1 ∧ sep ∉ p0 ∧ sep ∉ p1 := by
  induction m generalizing p0 with
  | nil =>
    rw [show goSplit sep [] = [[]] from rfl] at h
    cases h
  | cons c rest ih =>
    unfold goSplit at h
    by_cases hc : c = sep
    · rw [if_pos hc] at h
      obtain ⟨h1, h2⟩ := (List.cons.injEq _ _ _ _).mp h
      obtain ⟨hm, hnm⟩ := goSplit_eq_singleton sep rest p1 h2
      subst hm hc h1
      exact ⟨rfl, by simp, hnm⟩
    · rw [if_neg hc] at h
      cases hrest : goSplit sep rest with
      | nil => exact absurd hrest (goSplit_ne_nil sep rest)
      | cons q qs =>
        rw [hrest] at h
        obtain ⟨h1, h2⟩ := (List.cons.injEq _ _ _ _).mp h
        subst h2
        obtain ⟨hm, hq, hp1⟩ := ih q hrest
        subst hm
        refine ⟨by rw [← h1]; rfl, ?_, hp1⟩
        rw [← h1]
        intro hmem
        rcases List.mem_cons.mp hmem with hx | hx
        · exact hc hx.symm
        · exact hq hx

theorem goSplit_eq_three (sep : Char) (m p0 p1 p2 : List Char)
    (h : goSplit sep m = [p0, p1, p2]) :
    m = p0 ++ sep :: (p1 ++ sep :: p2) ∧ sep ∉ p0 ∧ sep ∉ p1 ∧ sep ∉ p2 := by
  induction m generalizing p0 with
  | nil =>
    rw [show goSplit sep [] = [[]] from rfl] at h
    cases h
  | cons c rest ih =>
    unfold goSplit at h
    by_cases hc : c = sep
    · rw [if_pos hc] at h
      obtain ⟨h1, h2⟩ := (List.cons.injEq _ _ _ _).mp h
      obtain ⟨hm, hq, hp2⟩ := goSplit_eq_pair sep rest p1 p2 h2
      subst hm hc h1
      exact ⟨rfl, by simp, hq, hp2⟩
    · rw [if_neg hc] at h
      cases hrest : goSplit sep rest with
      | nil => exact absurd hrest (goSplit_ne_nil sep rest)
      | cons q qs =>
        rw [hrest] at h
        obtain ⟨h1, h2⟩ := (List.cons.injEq _ _ _ _).mp h
        subst h2
        obtain ⟨hm, hq, hp1, hp2⟩ := ih q hrest
        subst hm
        refine ⟨by rw [← h1]; rfl, ?_, hp1, hp2⟩
        rw [← h1]
        intro hmem
        rcases List.mem_cons.mp hmem with hx | hx
        · exact hc hx.symm
        · exact hq hx

theorem first_sep_eq (sep : Char) (a b c d : List Char)
    (ha : sep ∉ a) (hc : sep ∉ c) (h : a ++ sep :: b = c ++ sep :: d) :
    a = c ∧ b = d := by
  induction a generalizing c with
  | nil =>
    cases c with
    | nil =>
      simp only [List.nil_append] at h
      exact ⟨rfl, (List.cons.injEq _ _ _ _).mp h |>.2⟩
    | cons x c =>
      simp only [List.nil_append, List.cons_append] at h
      obtain ⟨h1, h2⟩ := (List.cons.injEq _ _ _ _).mp h
      exact absurd (h1 ▸ List.mem_cons_self x c) hc
  | cons x a ih =>
    cases c with
    | nil =>
      simp only [List.cons_append, List.nil_append] at h
      obtain ⟨h1, h2⟩ := (List.cons.injEq _ _ _ _).mp h
      exact absurd (h1 ▸ List.mem_cons_self x a) ha
    | cons y c =>
      simp only [List.cons_append] at h
      obtain ⟨h1, h2⟩ := (List.cons.injEq _ _ _ _).mp h
      have hxa : sep ∉ a := fun hm => ha (List.mem_cons_of_mem x hm)
      have hyc : sep ∉ c := fun hm => hc (List.mem_cons_of_mem y hm)
      obtain ⟨ha2, hb2⟩ := ih c hxa hyc h2
      exact ⟨by rw [h1, ha2], hb2⟩

end GoStr

namespace BwfsServer

theorem wf_to_split (m j s : List Char)
    (hmeq : m = "START_STREAM:".data ++ j ++ ':' :: s)
    (hjc : ':' ∉ j) (hs : (GoStr.goParseInt s).isSome) :
    GoStr.goSplit ':' m = ["START_STREAM".data, j, s] := by
  have hSc : (':' : Char) ∉ "START_STREAM".data := by decide
  have hmeq' : m = "START_STREAM".data ++ ':' :: (j ++ ':' :: s) := by
    rw [hmeq]
    rfl
  rw [hmeq', GoStr.goSplit_append_sep ':' _ _ hSc,
    GoStr.goSplit_append_sep ':' _ _ hjc,
    GoStr.goSplit_of_not_mem ':' s (GoStr.colon_not_mem_of_goParseInt_some s hs)]

/-- C8: on a new connection, the handler acknowledges with
`START_STREAM_OK` and creates stream state exactly when the (trimmed) first
message is a well-formed `START_STREAM:jobId:streamId` with a non-empty
jobId and an integer streamId; on any other first message it writes an
`ERROR` response and rejects the connection (the handler returns an error
and no stream state is created). -/
theorem OnConnectionStart_correct (line : List Char) :
    ((OnConnectionStart line).ok = true ↔
      WellFormedStreamOpen (GoStr.goTrimSpace line)) ∧
    ((OnConnectionStart line).ok = true ↔
      (OnConnectionStart line).response = "START_STREAM_OK".data ∧
      ((OnConnectionStart line).state).isSome = true) ∧
    ((OnConnectionStart line).ok = false ↔
      ("ERROR".data.isPrefixOf (OnConnectionStart line).response) = true ∧
      (OnConnectionStart line).state = none) := by
  simp only [OnConnectionStart]
  by_cases hp : ("START_STREAM:".data.isPrefixOf (GoStr.goTrimSpace line)) = true
  case neg =>
    rw [if_pos hp]
    have hnwf : ¬ WellFormedStreamOpen (GoStr.goTrimSpace line) := by
      rintro ⟨j, s, hmeq, hj, hjc, hs⟩
      apply hp
      rw [hmeq]
      simp
    refine ⟨iff_of_false (by simp) hnwf, iff_of_false (by simp) ?_, iff_of_true rfl ⟨by decide, rfl⟩⟩
    rintro ⟨h1, h2⟩
    simp at h2
  case pos =>
    rw [if_neg (not_not_intro hp)]
    by_cases hlen : (GoStr.goSplit ':' (GoStr.goTrimSpace line)).length = 3
    case neg =>
      rw [if_pos hlen]
      have hnwf : ¬ WellFormedStreamOpen (GoStr.goTrimSpace line) := by
        rintro ⟨j, s, hmeq, hj, hjc, hs⟩
        apply hlen
        rw [wf_to_split _ j s hmeq hjc hs]
        rfl
      refine ⟨iff_of_false (by simp) hnwf, iff_of_false (by simp) ?_, iff_of_true rfl ⟨by decide, rfl⟩⟩
      rintro ⟨h1, h2⟩
      simp at h2
    case pos =>
      rw [if_neg (not_not_intro hlen)]
      obtain ⟨p0, p1, p2, hps⟩ := List.length_eq_three.mp hlen
      rw [hps]
      obtain ⟨hmstruct, hnp0, hnp1, hnp2⟩ :=
        GoStr.goSplit_eq_three ':' (GoStr.goTrimSpace line) p0 p1 p2 hps
      obtain ⟨t, ht⟩ := List.isPrefixOf_iff_prefix.mp hp
      have ht' : "START_STREAM".data ++ ':' :: t = GoStr.goTrimSpace line := by
        rw [← ht]
        rfl
      have hSc : (':' : Char) ∉ "START_STREAM".data := by decide
      obtain ⟨hp0, htt⟩ := GoStr.first_sep_eq ':' "START_STREAM".data t p0 (p1 ++ ':' :: p2)
        hSc hnp0 (by rw [ht', hmstruct])
      have g1 : ([p0, p1, p2] : List (List Char)).getD 1 [] = p1 := rfl
      have g2 : ([p0, p1, p2] : List (List Char)).getD 2 [] = p2 := rfl
      rw [g1, g2]
      have hmS : GoStr.goTrimSpace line = "START_STREAM:".data ++ p1 ++ ':' :: p2 := by
        rw [hmstruct, ← hp0]
        rfl
      cases hai : GoStr.goParseInt p2 with
      | none =>
        dsimp only
        have hnwf : ¬ WellFormedStreamOpen (GoStr.goTrimSpace line) := by
          rintro ⟨j, s, hmeq, hj, hjc, hs⟩
          have hsplit1 := wf_to_split _ j s hmeq hjc hs
          rw [hps] at hsplit1
          have htl := (List.cons_eq_cons.mp hsplit1).2
          have hs1 : p2 = s :=
            (List.cons_eq_cons.mp (List.cons_eq_cons.mp htl).2).1
          rw [← hs1, hai] at hs
          simp at hs
        refine ⟨iff_of_false (by simp) hnwf, iff_of_false (by simp) ?_, iff_of_true rfl ⟨by decide, rfl⟩⟩
        rintro ⟨h1, h2⟩
        simp at h2
      | some v =>
        dsimp only
        by_cases hj0 : p1 = []
        · rw [if_pos hj0]
          have hnwf : ¬ WellFormedStreamOpen (GoStr.goTrimSpace line) := by
            rintro ⟨j, s, hmeq, hj, hjc, hs⟩
            have hsplit1 := wf_to_split _ j s hmeq hjc hs
            rw [hps] at hsplit1
            have hj1 : p1 = j := (List.cons_eq_cons.mp (List.cons_eq_cons.mp hsplit1).2).1
            exact hj (hj1.symm.trans hj0)
          refine ⟨iff_of_false (by simp) hnwf, iff_of_false (by simp) ?_, iff_of_true rfl ⟨by decide, rfl⟩⟩
          rintro ⟨h1, h2⟩
          simp at h2
        · rw [if_neg hj0]
          have hwf : WellFormedStreamOpen (GoStr.goTrimSpace line) :=
            ⟨p1, p2, hmS, hj0, hnp1, by rw [hai]; rfl⟩
          refine ⟨iff_of_true rfl hwf, iff_of_true rfl ⟨rfl, rfl⟩, iff_of_false (by simp) ?_⟩
          rintro ⟨h1, h2⟩
          simp at h2

end BwfsServer
